import Mathlib

/-!
Verification of the DockerHubCleaner retention logic (`cleaner.go`).

The program is a linear pipeline: authenticate (`login`), fetch all tags of
one repository across paginated responses (`getTags`), sort them newest
first, then run two retention passes inside `main`:

* the count pass (cleaner.go lines 198-211): when `KEEP_COUNT` is set and
  the tag list is longer, every tag past the first `keepCount` entries is a
  deletion candidate; protected candidates are skipped (logged), the rest
  are deleted, and the in-memory list is truncated to `keepCount`;
* the size pass (cleaner.go lines 214-230): when `MAX_SIZE_MB > 0`, while
  the summed size of the working list exceeds the limit and the list is
  non-empty, the oldest entry is popped; protected entries are merely
  popped (logged), others are deleted and popped.

Deletion failures are logged and never alter control flow, so the passes
are embedded twice: a pure version (`countPass`, `sizeLoop`, `plan`) giving
the deletion schedule, the protected-skip log and the final working list,
and an effectful version threaded with a failure oracle (`planExec`)
mirroring the `deleteTag` call sites.  Network interactions (`getTags`,
`login`) are embedded over an explicit list of HTTP responses.
-/

/-- One image tag, from the Go struct `Tag` (cleaner.go lines 21-25):
`Name string`, `LastUpdated time.Time` (embedded as an integer timestamp;
`After` is `<` on timestamps), `FullSize int64`. -/
structure Tag where
  name : String
  lastUpdated : Int
  fullSize : Int
deriving DecidableEq, Repr

/-- Outcome of one retention pass: the tags whose deletion was requested
(in request order), the protected tags that were skipped (logged, in log
order), and the value of the in-memory `tags` slice after the pass. -/
structure PassResult where
  scheduled : List Tag
  skipped : List Tag
  remaining : List Tag
deriving DecidableEq, Repr

/-- Go `sumSize` (cleaner.go lines 107-113): `total += t.FullSize` over the
slice, starting from zero. -/
def sumSize (tags : List Tag) : Int :=
  tags.foldl (fun total t => total + t.fullSize) 0

/-- Count pass of `main` (cleaner.go lines 198-211).  Active when
`keepCount >= 0 && len(tags) > keepCount`; `toDelete := tags[keepCount:]`
is walked in order, protected names are skipped, the others deleted, and
finally `tags = tags[:keepCount]`. -/
def countPass (keepCount : Int) (skipTags : List String) (tags : List Tag) :
    PassResult :=
  if 0 ≤ keepCount ∧ keepCount < (tags.length : Int) then
    ⟨(tags.drop keepCount.toNat).filter (fun t => !(skipTags.contains t.name)),
     (tags.drop keepCount.toNat).filter (fun t => skipTags.contains t.name),
     tags.take keepCount.toNat⟩
  else ⟨[], [], tags⟩

/-- Size-pass loop body of `main` (cleaner.go lines 215-229), with the
iteration count made explicit as fuel.  Each iteration tests
`sumSize(tags) > limit && len(tags) > 0`, looks at the oldest (last)
entry, pops it from the slice, and either skips it (protected) or deletes
it.  One unit of fuel per iteration; since every iteration shortens the
slice by one, `tags.length` units of fuel reproduce the `for` loop exactly
(`sizeLoop` below). -/
def sizeLoopFuel (limit : Int) (skipTags : List String) :
    Nat → List Tag → PassResult
  | 0, tags => ⟨[], [], tags⟩
  | fuel + 1, tags =>
    if h : sumSize tags > limit ∧ tags ≠ [] then
      let oldest := tags.getLast h.2
      if skipTags.contains oldest.name then
        let r := sizeLoopFuel limit skipTags fuel tags.dropLast
        ⟨r.scheduled, oldest :: r.skipped, r.remaining⟩
      else
        let r := sizeLoopFuel limit skipTags fuel tags.dropLast
        ⟨oldest :: r.scheduled, r.skipped, r.remaining⟩
    else ⟨[], [], tags⟩

/-- Size pass of `main` (cleaner.go lines 214-230): the loop of
`sizeLoopFuel` run to completion. -/
def sizeLoop (limit : Int) (skipTags : List String) (tags : List Tag) :
    PassResult :=
  sizeLoopFuel limit skipTags tags.length tags

/-- The retention planning of `main` (cleaner.go lines 198-230): the count
pass on the sorted tag list, then, when `maxSizeMB > 0`, the size pass on
the truncated list, with limit `maxSizeMB*1024*1024` bytes. -/
def plan (keepCount maxSizeMB : Int) (skipTags : List String)
    (tags : List Tag) : PassResult :=
  let c := countPass keepCount skipTags tags
  if maxSizeMB > 0 then
    let s := sizeLoop (maxSizeMB * 1024 * 1024) skipTags c.remaining
    ⟨c.scheduled ++ s.scheduled, c.skipped ++ s.skipped, s.remaining⟩
  else c

/-- The tags still present in the repository after a pass, assuming every
requested deletion succeeded: the fetched tags whose name was not in the
deletion schedule. -/
def survivors (tags : List Tag) (r : PassResult) : List Tag :=
  tags.filter (fun t => !((r.scheduled.map Tag.name).contains t.name))

/-- Iteration of the count pass over `toDelete` (cleaner.go lines 200-209)
with the `deleteTag` calls made explicit: `fail t` tells whether
`deleteTag` for tag name `t` returns an error.  Results: deletion requests
issued, protected skips logged, and the delete-error log — an error is
logged (`log.Println`) and the loop moves on. -/
def runDeletes (fail : String → Bool) (skipTags : List String) :
    List Tag → List Tag × List Tag × List String
  | [] => ([], [], [])
  | t :: ts =>
    if skipTags.contains t.name then
      let r := runDeletes fail skipTags ts
      (r.1, t :: r.2.1, r.2.2)
    else
      let r := runDeletes fail skipTags ts
      if fail t.name then (t :: r.1, r.2.1, t.name :: r.2.2)
      else (t :: r.1, r.2.1, r.2.2)

/-- Count pass (cleaner.go lines 198-211) with the `deleteTag` calls made
explicit; second component is the delete-error log. -/
def countPassExec (fail : String → Bool) (keepCount : Int)
    (skipTags : List String) (tags : List Tag) : PassResult × List String :=
  if 0 ≤ keepCount ∧ keepCount < (tags.length : Int) then
    let d := runDeletes fail skipTags (tags.drop keepCount.toNat)
    (⟨d.1, d.2.1, tags.take keepCount.toNat⟩, d.2.2)
  else (⟨[], [], tags⟩, [])

/-- Size-pass loop (cleaner.go lines 215-229) with the `deleteTag` calls
made explicit: a failed deletion is logged and the slice is truncated all
the same (`tags = tags[:len(tags)-1]` runs unconditionally). -/
def sizeLoopFuelExec (fail : String → Bool) (limit : Int)
    (skipTags : List String) : Nat → List Tag → PassResult × List String
  | 0, tags => (⟨[], [], tags⟩, [])
  | fuel + 1, tags =>
    if h : sumSize tags > limit ∧ tags ≠ [] then
      let oldest := tags.getLast h.2
      if skipTags.contains oldest.name then
        let r := sizeLoopFuelExec fail limit skipTags fuel tags.dropLast
        (⟨r.1.scheduled, oldest :: r.1.skipped, r.1.remaining⟩, r.2)
      else
        let r := sizeLoopFuelExec fail limit skipTags fuel tags.dropLast
        if fail oldest.name then
          (⟨oldest :: r.1.scheduled, r.1.skipped, r.1.remaining⟩,
           oldest.name :: r.2)
        else (⟨oldest :: r.1.scheduled, r.1.skipped, r.1.remaining⟩, r.2)
    else (⟨[], [], tags⟩, [])

/-- Size pass with explicit `deleteTag` calls, run to completion. -/
def sizeLoopExec (fail : String → Bool) (limit : Int)
    (skipTags : List String) (tags : List Tag) : PassResult × List String :=
  sizeLoopFuelExec fail limit skipTags tags.length tags

/-- Both retention passes of `main` (cleaner.go lines 198-230) with the
`deleteTag` calls made explicit; second component is the delete-error log
accumulated across the two passes. -/
def planExec (fail : String → Bool) (keepCount maxSizeMB : Int)
    (skipTags : List String) (tags : List Tag) : PassResult × List String :=
  let c := countPassExec fail keepCount skipTags tags
  if maxSizeMB > 0 then
    let s := sizeLoopExec fail (maxSizeMB * 1024 * 1024) skipTags
      c.1.remaining
    (⟨c.1.scheduled ++ s.1.scheduled, c.1.skipped ++ s.1.skipped,
      s.1.remaining⟩, c.2 ++ s.2)
  else c

/-- One decoded page body, from the Go struct `TagsResponse`
(cleaner.go lines 27-30): `Results []Tag`, `Next string` (empty string
means no further page). -/
structure PageOk where
  results : List Tag
  next : String
deriving DecidableEq, Repr

/-- One network interaction of the tag-listing loop: either the transport
fails (`client.Do` error), or a response arrives with a status code and a
body whose JSON decoding may fail. -/
inductive HttpPage where
  | transport : String → HttpPage
  | resp : Nat → Except String PageOk → HttpPage
deriving Repr

/-- Go `getTags` (cleaner.go lines 33-61) over an explicit list of the
successive responses of the service.  The loop runs while the next-page
URL is non-empty: a transport error, a status other than 200, or a decode
error abort with an error (the accumulated `tags` are discarded —
`return nil, err`); otherwise the results are appended and the loop
follows `tr.Next`.  An exhausted response list stands for a transport
failure on the next request. -/
def getTags : List HttpPage → List Tag → Except String (List Tag)
  | [], _ => Except.error "transport failure"
  | HttpPage.transport e :: _, _ => Except.error e
  | HttpPage.resp status body :: rest, acc =>
    if status ≠ 200 then
      Except.error ("failed to fetch tags: " ++ toString status)
    else
      match body with
      | Except.error e => Except.error e
      | Except.ok page =>
        if page.next ≠ "" then getTags rest (acc ++ page.results)
        else Except.ok (acc ++ page.results)

/-- The authentication exchange of Go `login` (cleaner.go lines 84-104):
either the transport fails, or a response arrives with a status code and
a body decoded into a string-to-string map (an association list here). -/
inductive LoginResp where
  | transport : String → LoginResp
  | resp : Nat → Except String (List (String × String)) → LoginResp
deriving Repr

/-- Go map indexing `result["token"]` (cleaner.go line 103): a missing key
yields the zero value, the empty string. -/
def mapIndex (m : List (String × String)) (key : String) : String :=
  match m.lookup key with
  | some v => v
  | none => ""

/-- Go `login` (cleaner.go lines 84-104): transport error or non-200
status or decode error abort; otherwise the call returns
`result["token"]` with a nil error. -/
def login : LoginResp → Except String String
  | LoginResp.transport e => Except.error e
  | LoginResp.resp status body =>
    if status ≠ 200 then Except.error "login failed"
    else
      match body with
      | Except.error e => Except.error e
      | Except.ok result => Except.ok (mapIndex result "token")

/-- The sort of `main` (cleaner.go lines 193-195): newest `lastUpdated`
first; ties are in no guaranteed order (`sort.Slice` is unstable), the
merge sort here realizes one admissible order. -/
def sortTags (tags : List Tag) : List Tag :=
  tags.mergeSort (fun a b => b.lastUpdated ≤ a.lastUpdated)

/-- The fatal-error skeleton of `main` (cleaner.go lines 180-230): login
failure aborts (`log.Fatal`), fetch failure aborts, and only then are the
retention passes run (with every `deleteTag` assumed to succeed; see
`planExec` for the general case).  The returned `PassResult` stands for
the deletions issued and the final state. -/
def runMain (lr : LoginResp) (pages : List HttpPage)
    (keepCount maxSizeMB : Int) (skipTags : List String) :
    Except String PassResult :=
  match login lr with
  | Except.error e => Except.error e
  | Except.ok _token =>
    match getTags pages [] with
    | Except.error e => Except.error e
    | Except.ok tags => Except.ok (plan keepCount maxSizeMB skipTags
        (sortTags tags))

/-- Modelled from the claim wording for C3, NOT from the source: a size
loop in which a protected oldest tag is removed from consideration while
its size still counts toward the total compared against the limit on
subsequent iterations (the running `excluded` amount is added back into
every comparison).  To be compared against `sizeLoopFuel`, which embeds
the actual code. -/
def sizeLoopClaimC3 (limit : Int) (skipTags : List String) :
    Nat → Int → List Tag → PassResult
  | 0, _, tags => ⟨[], [], tags⟩
  | fuel + 1, excluded, tags =>
    if h : sumSize tags + excluded > limit ∧ tags ≠ [] then
      let oldest := tags.getLast h.2
      if skipTags.contains oldest.name then
        let r := sizeLoopClaimC3 limit skipTags fuel
          (excluded + oldest.fullSize) tags.dropLast
        ⟨r.scheduled, oldest :: r.skipped, r.remaining⟩
      else
        let r := sizeLoopClaimC3 limit skipTags fuel excluded tags.dropLast
        ⟨oldest :: r.scheduled, r.skipped, r.remaining⟩
    else ⟨[], [], tags⟩

/-- A 100 MiB tag named `a`, newest. -/
def tagA : Tag := ⟨"a", 5, 100 * 1024 * 1024⟩

/-- A 100 MiB tag named `b`. -/
def tagB : Tag := ⟨"b", 4, 100 * 1024 * 1024⟩

/-- A 100 MiB tag named `c`, oldest. -/
def tagC : Tag := ⟨"c", 3, 100 * 1024 * 1024⟩

/-- A page response on which the tag-listing loop keeps going: status 200,
a body that decodes, and a non-empty next-page URL. -/
def goodPage (p : HttpPage) : Prop :=
  ∃ page : PageOk, p = HttpPage.resp 200 (Except.ok page) ∧ page.next ≠ ""

example :
    plan 2 (-1) [] [⟨"a", 5, 10⟩, ⟨"b", 4, 10⟩, ⟨"c", 3, 10⟩] =
      ⟨[⟨"c", 3, 10⟩], [], [⟨"a", 5, 10⟩, ⟨"b", 4, 10⟩]⟩ := by decide

example :
    plan (-1) 150 []
      [⟨"a", 5, 100 * 1024 * 1024⟩, ⟨"b", 4, 100 * 1024 * 1024⟩,
       ⟨"c", 3, 100 * 1024 * 1024⟩] =
      ⟨[⟨"c", 3, 100 * 1024 * 1024⟩, ⟨"b", 4, 100 * 1024 * 1024⟩], [],
       [⟨"a", 5, 100 * 1024 * 1024⟩]⟩ := by decide

example :
    plan (-1) 150 ["c"]
      [⟨"a", 5, 100 * 1024 * 1024⟩, ⟨"b", 4, 100 * 1024 * 1024⟩,
       ⟨"c", 3, 100 * 1024 * 1024⟩] =
      ⟨[⟨"b", 4, 100 * 1024 * 1024⟩], [⟨"c", 3, 100 * 1024 * 1024⟩],
       [⟨"a", 5, 100 * 1024 * 1024⟩]⟩ := by decide

/-- Loop invariant of the size pass: with enough fuel (one unit per
possible iteration), the final working list is an initial segment of the
input, every iteration accounted for exactly one tag (scheduled or
skipped), and the loop stopped because the size bound was met or the
working list was exhausted. -/
theorem sizeLoopFuel_spec (limit : Int) (skipTags : List String) :
    ∀ (fuel : Nat) (tags : List Tag), tags.length ≤ fuel →
      (sizeLoopFuel limit skipTags fuel tags).remaining =
          tags.take (sizeLoopFuel limit skipTags fuel tags).remaining.length ∧
        (sizeLoopFuel limit skipTags fuel tags).scheduled.length +
            (sizeLoopFuel limit skipTags fuel tags).skipped.length +
            (sizeLoopFuel limit skipTags fuel tags).remaining.length =
          tags.length ∧
        (sumSize (sizeLoopFuel limit skipTags fuel tags).remaining ≤ limit ∨
          (sizeLoopFuel limit skipTags fuel tags).remaining = []) := by
  intro fuel
  induction fuel with
  | zero =>
    intro tags hle
    have htags : tags = [] := List.eq_nil_of_length_eq_zero (Nat.le_zero.mp hle)
    subst htags
    simp [sizeLoopFuel]
  | succ fuel ih =>
    intro tags hle
    by_cases h : sumSize tags > limit ∧ tags ≠ []
    · have hpos : 0 < tags.length := List.length_pos.mpr h.2
      have hdl : tags.dropLast.length = tags.length - 1 :=
        List.length_dropLast tags
      have hfuel : tags.dropLast.length ≤ fuel := by omega
      obtain ⟨ih1, ih2, ih3⟩ := ih tags.dropLast hfuel
      have hrem : (sizeLoopFuel limit skipTags fuel tags.dropLast).remaining.length ≤
          tags.dropLast.length := by omega
      have key : ∀ n : Nat, n ≤ tags.length - 1 →
          tags.dropLast.take n = tags.take n := by
        intro n hn
        rw [List.dropLast_eq_take, List.take_take, Nat.min_eq_left hn]
      have htake : (sizeLoopFuel limit skipTags fuel tags.dropLast).remaining =
          tags.take
            (sizeLoopFuel limit skipTags fuel tags.dropLast).remaining.length := by
        conv_lhs => rw [ih1]
        rw [key _ (by omega)]
      by_cases hc : skipTags.contains (tags.getLast h.2).name
      · simp only [sizeLoopFuel, dif_pos h, if_pos hc]
        exact ⟨htake, by simpa using by omega, ih3⟩
      · simp only [sizeLoopFuel, dif_pos h, if_neg hc]
        exact ⟨htake, by simpa using by omega, ih3⟩
    · simp only [sizeLoopFuel, dif_neg h]
      refine ⟨(List.take_length tags).symm, by simp, ?_⟩
      rcases not_and_or.mp h with hs | hne
      · exact Or.inl (not_lt.mp hs)
      · exact Or.inr (not_not.mp hne)

/-- When the working list is already within the size bound the size loop
does nothing, whatever the fuel. -/
theorem sizeLoopFuel_noop (limit : Int) (skipTags : List String)
    (fuel : Nat) (tags : List Tag) (h : ¬ sumSize tags > limit) :
    sizeLoopFuel limit skipTags fuel tags = ⟨[], [], tags⟩ := by
  cases fuel with
  | zero => rfl
  | succ fuel =>
    have : ¬ (sumSize tags > limit ∧ tags ≠ []) := fun hc => h hc.1
    simp only [sizeLoopFuel, dif_neg this]

/-- Every deletion the size loop requests is of an unprotected tag. -/
theorem sizeLoopFuel_scheduled_unprotected (limit : Int)
    (skipTags : List String) :
    ∀ (fuel : Nat) (tags : List Tag) (t : Tag),
      t ∈ (sizeLoopFuel limit skipTags fuel tags).scheduled →
        skipTags.contains t.name = false := by
  intro fuel
  induction fuel with
  | zero => intro tags t ht; simp [sizeLoopFuel] at ht
  | succ fuel ih =>
    intro tags t ht
    by_cases h : sumSize tags > limit ∧ tags ≠ []
    · by_cases hc : skipTags.contains (tags.getLast h.2).name
      · simp only [sizeLoopFuel, dif_pos h, if_pos hc] at ht
        exact ih tags.dropLast t ht
      · simp only [sizeLoopFuel, dif_pos h, if_neg hc] at ht
        rcases List.mem_cons.mp ht with rfl | ht
        · exact Bool.not_eq_true _ ▸ eq_false_of_ne_true hc
        · exact ih tags.dropLast t ht
    · simp only [sizeLoopFuel, dif_neg h] at ht
      simp at ht

/-- Every deletion the whole planner requests is of an unprotected tag. -/
theorem plan_scheduled_unprotected (keepCount maxSizeMB : Int)
    (skipTags : List String) (tags : List Tag) :
    ∀ t ∈ (plan keepCount maxSizeMB skipTags tags).scheduled,
      skipTags.contains t.name = false := by
  intro t ht
  have hcount : ∀ u ∈ (countPass keepCount skipTags tags).scheduled,
      skipTags.contains u.name = false := by
    intro u hu
    unfold countPass at hu
    by_cases hcond : 0 ≤ keepCount ∧ keepCount < (tags.length : Int)
    · rw [if_pos hcond] at hu
      have := (List.mem_filter.mp hu).2
      simpa using this
    · rw [if_neg hcond] at hu
      simp at hu
  unfold plan at ht
  by_cases hm : maxSizeMB > 0
  · rw [if_pos hm] at ht
    rcases List.mem_append.mp ht with ht | ht
    · exact hcount t ht
    · exact sizeLoopFuel_scheduled_unprotected _ _ _ _ t ht
  · rw [if_neg hm] at ht
    exact hcount t ht

/-- The count pass with explicit `deleteTag` calls requests the same
deletions, logs the same protected skips, truncates the slice the same
way, and logs exactly the failing candidates. -/
theorem runDeletes_eq (fail : String → Bool) (skipTags : List String) :
    ∀ l : List Tag,
      runDeletes fail skipTags l =
        (l.filter (fun t => !(skipTags.contains t.name)),
         l.filter (fun t => skipTags.contains t.name),
         ((l.filter (fun t => !(skipTags.contains t.name))).filter
             (fun t => fail t.name)).map Tag.name) := by
  intro l
  induction l with
  | nil => rfl
  | cons t ts ih =>
    by_cases hc : skipTags.contains t.name
    · have hm : t.name ∈ skipTags := by simpa using hc
      simp [runDeletes, hc, hm, ih, List.filter_cons]
    · have hm : ¬ t.name ∈ skipTags := by simpa using hc
      by_cases hf : fail t.name
      · simp [runDeletes, hc, hm, hf, ih, List.filter_cons]
      · simp [runDeletes, hc, hm, hf, ih, List.filter_cons]

/-- `countPassExec` refines `countPass`: same pass outcome, and the error
log is exactly the failing deletion candidates. -/
theorem countPassExec_eq (fail : String → Bool) (keepCount : Int)
    (skipTags : List String) (tags : List Tag) :
    countPassExec fail keepCount skipTags tags =
      (countPass keepCount skipTags tags,
       ((countPass keepCount skipTags tags).scheduled.filter
           (fun t => fail t.name)).map Tag.name) := by
  unfold countPassExec countPass
  by_cases hcond : 0 ≤ keepCount ∧ keepCount < (tags.length : Int)
  · rw [if_pos hcond, if_pos hcond, runDeletes_eq]
  · rw [if_neg hcond, if_neg hcond]
    rfl

/-- `sizeLoopFuelExec` refines `sizeLoopFuel`: same pass outcome, and the
error log is exactly the failing deletion candidates. -/
theorem sizeLoopFuelExec_eq (fail : String → Bool) (limit : Int)
    (skipTags : List String) :
    ∀ (fuel : Nat) (tags : List Tag),
      sizeLoopFuelExec fail limit skipTags fuel tags =
        (sizeLoopFuel limit skipTags fuel tags,
         ((sizeLoopFuel limit skipTags fuel tags).scheduled.filter
             (fun t => fail t.name)).map Tag.name) := by
  intro fuel
  induction fuel with
  | zero => intro tags; rfl
  | succ fuel ih =>
    intro tags
    by_cases h : sumSize tags > limit ∧ tags ≠ []
    · by_cases hc : skipTags.contains (tags.getLast h.2).name
      · simp only [sizeLoopFuelExec, sizeLoopFuel, dif_pos h, if_pos hc,
          ih tags.dropLast]
      · by_cases hf : fail (tags.getLast h.2).name
        · simp only [sizeLoopFuelExec, sizeLoopFuel, dif_pos h, if_neg hc,
            ih tags.dropLast]
          simp [List.filter_cons, hf]
        · simp only [sizeLoopFuelExec, sizeLoopFuel, dif_pos h, if_neg hc,
            ih tags.dropLast]
          simp [List.filter_cons, hf]
    · simp only [sizeLoopFuelExec, sizeLoopFuel, dif_neg h]
      rfl

/-- `planExec` refines `plan`: for every pattern of `deleteTag` failures,
both passes run to completion with the same requested deletions, skips
and final list, and the error log is exactly the failing candidates. -/
theorem planExec_eq (fail : String → Bool) (keepCount maxSizeMB : Int)
    (skipTags : List String) (tags : List Tag) :
    planExec fail keepCount maxSizeMB skipTags tags =
      (plan keepCount maxSizeMB skipTags tags,
       ((plan keepCount maxSizeMB skipTags tags).scheduled.filter
           (fun t => fail t.name)).map Tag.name) := by
  unfold planExec plan sizeLoopExec sizeLoop
  rw [countPassExec_eq]
  by_cases hm : maxSizeMB > 0
  · rw [if_pos hm, if_pos hm]
    simp only [sizeLoopFuelExec_eq]
    simp [List.filter_append]
  · rw [if_neg hm, if_neg hm]

/-- A non-success status on any page of the listing makes `getTags` return
an error (and no tag list), however many good pages preceded it and
whatever was accumulated so far. -/
theorem getTags_error_of_bad_page (status : Nat) (hst : status ≠ 200)
    (body : Except String PageOk) (rest : List HttpPage) :
    ∀ pre : List HttpPage, (∀ p ∈ pre, goodPage p) → ∀ acc : List Tag,
      getTags (pre ++ HttpPage.resp status body :: rest) acc =
        Except.error ("failed to fetch tags: " ++ toString status) := by
  intro pre
  induction pre with
  | nil =>
    intro _ acc
    simp only [List.nil_append, getTags]
    rw [if_pos hst]
  | cons p pre ih =>
    intro hgood acc
    obtain ⟨page, rfl, hnext⟩ := hgood p (List.mem_cons_self p pre)
    simp only [List.cons_append, getTags]
    rw [if_neg (by simp), if_pos hnext]
    exact ih (fun q hq => hgood q (List.mem_cons_of_mem _ hq)) (acc ++ page.results)

/-- C1: for every fetched tag list, protection list and retention policy
(and every pattern of `deleteTag` outcomes), neither the count pass nor
the size pass ever invokes deletion of a tag whose name is in the
protection set. -/
theorem C1_never_deletes_protected (fail : String → Bool)
    (keepCount maxSizeMB : Int) (skipTags : List String) (tags : List Tag) :
    ((planExec fail keepCount maxSizeMB skipTags tags).1.scheduled.all
      (fun t => !(skipTags.contains t.name))) = true := by
  rw [planExec_eq, List.all_eq_true]
  intro t ht
  have h := plan_scheduled_unprotected keepCount maxSizeMB skipTags tags t ht
  simpa using h

/-- C7: a `deleteTag` failure never aborts the run: whatever the pattern
of failures, both passes issue the same deletion requests, log the same
protected skips and reach the same final list as the all-success run, and
the failures are exactly logged, one per failing candidate. -/
theorem C7_delete_failure_never_aborts (fail : String → Bool)
    (keepCount maxSizeMB : Int) (skipTags : List String) (tags : List Tag) :
    planExec fail keepCount maxSizeMB skipTags tags =
      (plan keepCount maxSizeMB skipTags tags,
       ((plan keepCount maxSizeMB skipTags tags).scheduled.filter
           (fun t => fail t.name)).map Tag.name) :=
  planExec_eq fail keepCount maxSizeMB skipTags tags

/-- C9: the size loop (a total function here; the fuel argument of
`sizeLoopFuel` bounds its iterations by the list length) removes exactly
one tag from the working list per iteration — scheduled and skipped tags
together with the final list repartition the input, whose initial segment
the final list is — and stops exactly when the size constraint is met or
no tags remain under consideration. -/
theorem C9_size_loop_terminates (limit : Int) (skipTags : List String)
    (tags : List Tag) :
    (sizeLoop limit skipTags tags).remaining =
        tags.take (sizeLoop limit skipTags tags).remaining.length ∧
      (sizeLoop limit skipTags tags).scheduled.length +
          (sizeLoop limit skipTags tags).skipped.length +
          (sizeLoop limit skipTags tags).remaining.length = tags.length ∧
      (sumSize (sizeLoop limit skipTags tags).remaining ≤ limit ∨
        (sizeLoop limit skipTags tags).remaining = []) :=
  sizeLoopFuel_spec limit skipTags tags.length tags (le_refl _)

/-- C4: with a bounded positive size limit and no protections, the run
ends with the surviving list within `maxSizeMB*1024*1024` bytes or
empty. -/
theorem C4_size_bound_or_empty (keepCount maxSizeMB : Int)
    (tags : List Tag) (hm : maxSizeMB > 0) :
    sumSize (plan keepCount maxSizeMB [] tags).remaining ≤
        maxSizeMB * 1024 * 1024 ∨
      (plan keepCount maxSizeMB [] tags).remaining = [] := by
  simp only [plan, sizeLoop, if_pos hm]
  exact (sizeLoopFuel_spec _ _ _ _ (le_refl _)).2.2

/-- Witness for C4 at a concrete input: three 100 MiB tags against a
150 MB limit leave a single surviving tag within the bound. -/
theorem C4_size_bound_or_empty_witness :
    (150 : Int) > 0 ∧
      (sumSize (plan (-1) 150 [] [tagA, tagB, tagC]).remaining ≤
          150 * 1024 * 1024 ∨
        (plan (-1) 150 [] [tagA, tagB, tagC]).remaining = []) :=
  ⟨by decide, C4_size_bound_or_empty (-1) 150 [tagA, tagB, tagC] (by decide)⟩

/-- C8: a tag list that already satisfies both active policies (count
within `keepCount`, total size within the limit) gets zero scheduled
deletions and is left unchanged by the two passes. -/
theorem C8_compliant_zero_deletions (keepCount maxSizeMB : Int)
    (skipTags : List String) (tags : List Tag)
    (_hk : 0 ≤ keepCount) (hm : maxSizeMB > 0)
    (hcount : (tags.length : Int) ≤ keepCount)
    (hsize : sumSize tags ≤ maxSizeMB * 1024 * 1024) :
    plan keepCount maxSizeMB skipTags tags = ⟨[], [], tags⟩ := by
  have hc : ¬ (0 ≤ keepCount ∧ keepCount < (tags.length : Int)) := by
    intro h; omega
  have hcp : countPass keepCount skipTags tags = ⟨[], [], tags⟩ := by
    unfold countPass; rw [if_neg hc]
  simp only [plan, hcp, if_pos hm, sizeLoop]
  rw [sizeLoopFuel_noop _ _ _ _ (not_lt.mpr hsize)]
  rfl

/-- Witness for C8 at a concrete input: one 100 MiB tag under the policy
(keep 5, 150 MB) is untouched. -/
theorem C8_compliant_zero_deletions_witness :
    (0 : Int) ≤ 5 ∧ (150 : Int) > 0 ∧ (([tagA].length : Int) ≤ 5) ∧
      sumSize [tagA] ≤ 150 * 1024 * 1024 ∧
      plan 5 150 ["c"] [tagA] = ⟨[], [], [tagA]⟩ :=
  ⟨by decide, by decide, by decide, by decide,
   C8_compliant_zero_deletions 5 150 ["c"] [tagA] (by decide) (by decide)
     (by decide) (by decide)⟩

/-- C5: with a bounded `keepCount`, no protections and no size limit, the
pass keeps exactly `min keepCount (length)` tags, namely the first
`keepCount` entries of the recency-sorted list — the most recently
updated ones: every deleted tag is at most as recent as every kept tag. -/
theorem C5_count_pass_keeps_most_recent (k : Nat) (maxSizeMB : Int)
    (tags : List Tag) (hm : ¬ maxSizeMB > 0)
    (hsort : tags.Pairwise (fun a b => b.lastUpdated ≤ a.lastUpdated)) :
    (plan (k : Int) maxSizeMB [] tags).remaining = tags.take k ∧
      (plan (k : Int) maxSizeMB [] tags).remaining.length =
        min k tags.length ∧
      ∀ t ∈ (plan (k : Int) maxSizeMB [] tags).remaining,
        ∀ u ∈ (plan (k : Int) maxSizeMB [] tags).scheduled,
          u.lastUpdated ≤ t.lastUpdated := by
  have hplan : plan (k : Int) maxSizeMB [] tags = countPass (k : Int) [] tags := by
    simp only [plan, if_neg hm]
  rw [hplan]
  by_cases hcond : 0 ≤ (k : Int) ∧ (k : Int) < (tags.length : Int)
  · have hklen : k < tags.length := by exact_mod_cast hcond.2
    have hcp : countPass (k : Int) [] tags =
        ⟨tags.drop k, [], tags.take k⟩ := by
      unfold countPass
      rw [if_pos hcond]
      simp [Int.toNat_natCast]
    rw [hcp]
    refine ⟨rfl, ?_, ?_⟩
    · simp [List.length_take]
    · intro t ht u hu
      have hpw : tags.Pairwise (fun a b => b.lastUpdated ≤ a.lastUpdated) :=
        hsort
      rw [← List.take_append_drop k tags] at hpw
      exact (List.pairwise_append.mp hpw).2.2 t ht u hu
  · have hklen : tags.length ≤ k := by
      rcases not_and_or.mp hcond with h0 | hlt
      · exact absurd (Int.natCast_nonneg k) h0
      · exact_mod_cast not_lt.mp hlt
    have hcp : countPass (k : Int) [] tags = ⟨[], [], tags⟩ := by
      unfold countPass
      rw [if_neg hcond]
    rw [hcp]
    refine ⟨(List.take_of_length_le hklen).symm, ?_, ?_⟩
    · simp [Nat.min_eq_right hklen]
    · intro t _ u hu
      simp at hu

/-- Witness for C5 at a concrete input: keep 2 out of three sorted tags,
the two newest survive and the scheduled one is older than each of them. -/
theorem C5_count_pass_keeps_most_recent_witness :
    ¬ (-1 : Int) > 0 ∧
      [tagA, tagB, tagC].Pairwise (fun a b => b.lastUpdated ≤ a.lastUpdated) ∧
      (plan ((2 : Nat) : Int) (-1) [] [tagA, tagB, tagC]).remaining =
        [tagA, tagB, tagC].take 2 ∧
      (plan ((2 : Nat) : Int) (-1) [] [tagA, tagB, tagC]).remaining.length =
        min 2 [tagA, tagB, tagC].length ∧
      tagC.lastUpdated ≤ tagA.lastUpdated :=
  ⟨by decide, by decide,
   (C5_count_pass_keeps_most_recent 2 (-1) [tagA, tagB, tagC] (by decide)
     (by decide)).1,
   (C5_count_pass_keeps_most_recent 2 (-1) [tagA, tagB, tagC] (by decide)
     (by decide)).2.1,
   (C5_count_pass_keeps_most_recent 2 (-1) [tagA, tagB, tagC] (by decide)
     (by decide)).2.2 tagA (by decide) tagC (by decide)⟩

/-- Splitting a filter over the first `k` entries and the rest: if the
predicate holds on the whole initial segment and agrees with `p` on the
remainder, the filter keeps the initial segment and filters the remainder
by `p`. -/
theorem filter_take_drop_split (l : List Tag) (k : Nat) (f p : Tag → Bool)
    (h1 : ∀ t ∈ l.take k, f t = true) (h2 : ∀ t ∈ l.drop k, f t = p t) :
    l.filter f = l.take k ++ (l.drop k).filter p := by
  have hsplit : (l.take k ++ l.drop k).filter f =
      l.take k ++ (l.drop k).filter p := by
    rw [List.filter_append, List.filter_eq_self.mpr h1, List.filter_congr h2]
  calc l.filter f = (l.take k ++ l.drop k).filter f := by
        rw [List.take_append_drop]
    _ = l.take k ++ (l.drop k).filter p := hsplit

/-- C2: when the tag list is longer than the bounded `keepCount` and names
are unique, the repository state after the count pass (fetched tags minus
the deletions it requested) is exactly the `keepCount` most recent tags
together with every protected candidate from the remainder — protected
candidates survive, so the surviving set may exceed `keepCount`; and with
`keepCount = 0` and every tag protected, no deletion is requested and all
tags survive. -/
theorem C2_count_pass_surviving_set (k : Nat) (skipTags : List String)
    (tags : List Tag) (hnd : (tags.map Tag.name).Nodup)
    (hlen : k < tags.length) :
    survivors tags (countPass (k : Int) skipTags tags) =
        tags.take k ++
          (tags.drop k).filter (fun t => skipTags.contains t.name) ∧
      ∀ skipAll : List String, (∀ t ∈ tags, skipAll.contains t.name = true) →
        (countPass 0 skipAll tags).scheduled = [] ∧
          survivors tags (countPass 0 skipAll tags) = tags := by
  constructor
  · have hcond : 0 ≤ (k : Int) ∧ (k : Int) < (tags.length : Int) :=
      ⟨Int.natCast_nonneg k, by exact_mod_cast hlen⟩
    have hcp : countPass (k : Int) skipTags tags =
        ⟨(tags.drop k).filter (fun t => !(skipTags.contains t.name)),
         (tags.drop k).filter (fun t => skipTags.contains t.name),
         tags.take k⟩ := by
      unfold countPass
      rw [if_pos hcond]
      simp [Int.toNat_natCast]
    rw [hcp]
    unfold survivors
    have hdisj : ∀ x, x ∈ (tags.take k).map Tag.name →
        x ∈ (tags.drop k).map Tag.name → False := by
      have hnd2 : ((tags.take k).map Tag.name ++
          (tags.drop k).map Tag.name).Nodup := by
        rw [← List.map_append, List.take_append_drop]
        exact hnd
      exact fun x hx hy => (List.nodup_append.mp hnd2).2.2 hx hy
    apply filter_take_drop_split
    · intro t ht
      have hnot : ¬ t.name ∈
          (((tags.drop k).filter
            (fun u => !(skipTags.contains u.name))).map Tag.name) := by
        intro hmem
        obtain ⟨u, hu, huname⟩ := List.mem_map.mp hmem
        exact hdisj t.name (List.mem_map.mpr ⟨t, ht, rfl⟩)
          (List.mem_map.mpr ⟨u, (List.mem_filter.mp hu).1, huname⟩)
      simpa using hnot
    · intro t ht
      cases hp : skipTags.contains t.name with
      | true =>
        have hnot : ¬ t.name ∈
            (((tags.drop k).filter
              (fun u => !(skipTags.contains u.name))).map Tag.name) := by
          intro hmem
          obtain ⟨u, hu, huname⟩ := List.mem_map.mp hmem
          have hun : skipTags.contains u.name = false := by
            have := (List.mem_filter.mp hu).2
            simpa using this
          rw [huname, hp] at hun
          exact Bool.true_eq_false.mp hun
        simpa using hnot
      | false =>
        have hmem : t.name ∈
            (((tags.drop k).filter
              (fun u => !(skipTags.contains u.name))).map Tag.name) :=
          List.mem_map.mpr ⟨t, List.mem_filter.mpr ⟨ht, by simpa using hp⟩, rfl⟩
        simpa using hmem
  · intro skipAll hall
    have hcond0 : 0 ≤ (0 : Int) ∧ (0 : Int) < (tags.length : Int) :=
      ⟨le_refl _, by exact_mod_cast Nat.lt_of_le_of_lt (Nat.zero_le k) hlen⟩
    have hsch : (countPass 0 skipAll tags).scheduled = [] := by
      unfold countPass
      rw [if_pos hcond0]
      simp only [Int.toNat_zero, List.drop_zero]
      rw [List.filter_eq_nil_iff]
      intro a ha
      simpa using hall a ha
    refine ⟨hsch, ?_⟩
    unfold survivors
    rw [hsch]
    simp

/-- Witness for C2 at a concrete input: keep 1 of three tags with `c`
protected — `a` is kept by recency, `c` survives as protected; and with
keep 0 and everything protected nothing is deleted. -/
theorem C2_count_pass_surviving_set_witness :
    ([tagA, tagB, tagC].map Tag.name).Nodup ∧ 1 < [tagA, tagB, tagC].length ∧
      survivors [tagA, tagB, tagC]
          (countPass ((1 : Nat) : Int) ["c"] [tagA, tagB, tagC]) =
        [tagA, tagB, tagC].take 1 ++
          ([tagA, tagB, tagC].drop 1).filter
            (fun t => ["c"].contains t.name) ∧
      (countPass 0 ["a", "b", "c"] [tagA, tagB, tagC]).scheduled = [] ∧
      survivors [tagA, tagB, tagC]
          (countPass 0 ["a", "b", "c"] [tagA, tagB, tagC]) =
        [tagA, tagB, tagC] :=
  ⟨by decide, by decide,
   (C2_count_pass_surviving_set 1 ["c"] [tagA, tagB, tagC] (by decide)
     (by decide)).1,
   ((C2_count_pass_surviving_set 1 ["c"] [tagA, tagB, tagC] (by decide)
     (by decide)).2 ["a", "b", "c"] (by decide)).1,
   ((C2_count_pass_surviving_set 1 ["c"] [tagA, tagB, tagC] (by decide)
     (by decide)).2 ["a", "b", "c"] (by decide)).2⟩

/-- Counterexample to C3 as stated.  Input: working list `[a, c]`, both
100 MiB, `c` (the oldest) protected, 150 MB limit.  The code
(cleaner.go line 220: `tags = tags[:len(tags)-1]`) pops `c` from the
working list, so the next comparison sees only `a`'s 100 MiB, is within
the limit, and the loop deletes nothing.  Under the claimed behavior —
the protected tag's size still counting toward the compared total — the
next comparison would see 200 MiB and schedule `a` (last conjunct, the
claim's loop modelled verbatim as `sizeLoopClaimC3`). -/
theorem C3_counterexample :
    (sizeLoop (150 * 1024 * 1024) ["c"] [tagA, tagC]).scheduled = [] ∧
      (sizeLoop (150 * 1024 * 1024) ["c"] [tagA, tagC]).skipped = [tagC] ∧
      (sizeLoop (150 * 1024 * 1024) ["c"] [tagA, tagC]).remaining = [tagA] ∧
      (sizeLoopClaimC3 (150 * 1024 * 1024) ["c"] 2 0 [tagA, tagC]).scheduled =
        [tagA] := by
  decide

/-- C3 amended: in the size pass, when the oldest remaining tag is
protected it is skipped from deletion and removed from further
consideration, and its size NO LONGER counts toward the total compared
against the limit on later iterations — the loop continues exactly as the
loop on the working list without it (so the surviving repository,
protected tags included, may still exceed the limit); it is never among
the requested deletions. -/
theorem C3_protected_size_not_counted (limit : Int)
    (skipTags : List String) (tags : List Tag) (hne : tags ≠ [])
    (hsum : sumSize tags > limit)
    (hprot : skipTags.contains (tags.getLast hne).name = true) :
    sizeLoop limit skipTags tags =
        ⟨(sizeLoop limit skipTags tags.dropLast).scheduled,
         tags.getLast hne :: (sizeLoop limit skipTags tags.dropLast).skipped,
         (sizeLoop limit skipTags tags.dropLast).remaining⟩ ∧
      ∀ u ∈ (sizeLoop limit skipTags tags).scheduled,
        u.name ≠ (tags.getLast hne).name := by
  have hlen : tags.length = tags.dropLast.length + 1 := by
    have h1 := List.length_dropLast tags
    have h2 : 0 < tags.length := List.length_pos.mpr hne
    omega
  constructor
  · rw [sizeLoop, hlen]
    simp only [sizeLoopFuel, dif_pos (And.intro hsum hne), if_pos hprot]
    rfl
  · intro u hu hname
    have hfree := sizeLoopFuel_scheduled_unprotected limit skipTags
      tags.length tags u hu
    rw [hname, hprot] at hfree
    exact Bool.true_eq_false.mp hfree

/-- Witness for C3's amended statement at a concrete input: `[a, b, c]`,
each 100 MiB, `c` protected, 150 MB limit.  The loop skips `c`, then —
comparing 200 MiB, without `c`'s size — deletes `b` and stops at `[a]`;
`b`, not `c`, is the scheduled deletion. -/
theorem C3_protected_size_not_counted_witness :
    sumSize [tagA, tagB, tagC] > 150 * 1024 * 1024 ∧
      ["c"].contains tagC.name = true ∧
      sizeLoop (150 * 1024 * 1024) ["c"] [tagA, tagB, tagC] =
        ⟨(sizeLoop (150 * 1024 * 1024) ["c"] [tagA, tagB]).scheduled,
         tagC :: (sizeLoop (150 * 1024 * 1024) ["c"] [tagA, tagB]).skipped,
         (sizeLoop (150 * 1024 * 1024) ["c"] [tagA, tagB]).remaining⟩ ∧
      tagB.name ≠ tagC.name :=
  ⟨by decide, by decide,
   (C3_protected_size_not_counted (150 * 1024 * 1024) ["c"]
     [tagA, tagB, tagC] (by decide) (by decide) (by decide)).1,
   (C3_protected_size_not_counted (150 * 1024 * 1024) ["c"]
     [tagA, tagB, tagC] (by decide) (by decide) (by decide)).2 tagB
     (by decide)⟩

/-- C6: when, after any number of successful pages, some page of the
listing comes back with a non-success status, `getTags` returns an error
and no tag collection (the accumulated tags are discarded with
`return nil, err`), and — the login having succeeded — the run aborts
(`log.Fatal`) with that error before any deletion is issued: `runMain`
produces no planning result. -/
theorem C6_fetch_failure_aborts_run (lr : LoginResp) (tok : String)
    (hlogin : login lr = Except.ok tok) (status : Nat) (hst : status ≠ 200)
    (body : Except String PageOk) (pre rest : List HttpPage)
    (hpre : ∀ p ∈ pre, goodPage p) (keepCount maxSizeMB : Int)
    (skipTags : List String) :
    getTags (pre ++ HttpPage.resp status body :: rest) [] =
        Except.error ("failed to fetch tags: " ++ toString status) ∧
      runMain lr (pre ++ HttpPage.resp status body :: rest) keepCount
          maxSizeMB skipTags =
        Except.error ("failed to fetch tags: " ++ toString status) := by
  have hget := getTags_error_of_bad_page status hst body rest pre hpre []
  refine ⟨hget, ?_⟩
  unfold runMain
  rw [hlogin, hget]

/-- Witness for C6 at a concrete input: page 1 succeeds and points to a
second page, page 2 answers 500; the fetch errors out and the run aborts
with the fetch error. -/
theorem C6_fetch_failure_aborts_run_witness :
    login (LoginResp.resp 200 (Except.ok [("token", "tok")])) =
        Except.ok "tok" ∧
      (500 : Nat) ≠ 200 ∧
      getTags
          ([HttpPage.resp 200 (Except.ok ⟨[tagA], "page2"⟩)] ++
            HttpPage.resp 500 (Except.ok ⟨[], ""⟩) ::
              [HttpPage.resp 200 (Except.ok ⟨[tagB], ""⟩)]) [] =
        Except.error ("failed to fetch tags: " ++ toString 500) ∧
      runMain (LoginResp.resp 200 (Except.ok [("token", "tok")]))
          ([HttpPage.resp 200 (Except.ok ⟨[tagA], "page2"⟩)] ++
            HttpPage.resp 500 (Except.ok ⟨[], ""⟩) ::
              [HttpPage.resp 200 (Except.ok ⟨[tagB], ""⟩)]) 1 150 [] =
        Except.error ("failed to fetch tags: " ++ toString 500) :=
  ⟨rfl, by decide,
   (C6_fetch_failure_aborts_run (LoginResp.resp 200
       (Except.ok [("token", "tok")])) "tok" rfl 500 (by decide)
     (Except.ok ⟨[], ""⟩) [HttpPage.resp 200 (Except.ok ⟨[tagA], "page2"⟩)]
     [HttpPage.resp 200 (Except.ok ⟨[tagB], ""⟩)]
     (by
       intro p hp
       rcases List.mem_singleton.mp hp with rfl
       exact ⟨⟨[tagA], "page2"⟩, rfl, by decide⟩)
     1 150 []).1,
   (C6_fetch_failure_aborts_run (LoginResp.resp 200
       (Except.ok [("token", "tok")])) "tok" rfl 500 (by decide)
     (Except.ok ⟨[], ""⟩) [HttpPage.resp 200 (Except.ok ⟨[tagA], "page2"⟩)]
     [HttpPage.resp 200 (Except.ok ⟨[tagB], ""⟩)]
     (by
       intro p hp
       rcases List.mem_singleton.mp hp with rfl
       exact ⟨⟨[tagA], "page2"⟩, rfl, by decide⟩)
     1 150 []).2⟩

/-- C10: implicit behavior of `login` — an HTTP 200 whose decoded JSON
body has no `token` key yields `result["token"] = ""` (the Go map zero
value) and a nil error, so the run does not abort at authentication: it
proceeds to fetch and plan with an empty bearer token. -/
theorem C10_missing_token_silent_empty (result : List (String × String))
    (hnone : result.lookup "token" = none) (pages : List HttpPage)
    (keepCount maxSizeMB : Int) (skipTags : List String) :
    login (LoginResp.resp 200 (Except.ok result)) = Except.ok "" ∧
      ∀ tags : List Tag, getTags pages [] = Except.ok tags →
        runMain (LoginResp.resp 200 (Except.ok result)) pages keepCount
            maxSizeMB skipTags =
          Except.ok (plan keepCount maxSizeMB skipTags (sortTags tags)) := by
  have hlog : login (LoginResp.resp 200 (Except.ok result)) =
      Except.ok "" := by
    show (if (200 : Nat) ≠ 200 then Except.error "login failed"
        else Except.ok (mapIndex result "token")) = Except.ok ""
    rw [if_neg (by simp)]
    unfold mapIndex
    rw [hnone]
  refine ⟨hlog, ?_⟩
  intro tags hget
  unfold runMain
  rw [hlog, hget]

/-- Witness for C10 at a concrete input: a 200 response whose body lacks
the `token` field logs in with the empty string and the run carries on to
a successful fetch and the planning stage. -/
theorem C10_missing_token_silent_empty_witness :
    [("detail", "ok")].lookup "token" = none ∧
      login (LoginResp.resp 200 (Except.ok [("detail", "ok")])) =
        Except.ok "" ∧
      runMain (LoginResp.resp 200 (Except.ok [("detail", "ok")]))
          [HttpPage.resp 200 (Except.ok ⟨[tagA], ""⟩)] (-1) (-1) [] =
        Except.ok (plan (-1) (-1) [] (sortTags [tagA])) :=
  ⟨by decide,
   (C10_missing_token_silent_empty [("detail", "ok")] (by decide)
     [HttpPage.resp 200 (Except.ok ⟨[tagA], ""⟩)] (-1) (-1) []).1,
   (C10_missing_token_silent_empty [("detail", "ok")] (by decide)
     [HttpPage.resp 200 (Except.ok ⟨[tagA], ""⟩)] (-1) (-1) []).2 [tagA] rfl⟩
